import Mathlib

/-
Verification of the SkyPortal localization model
(src/skyportal/models/localization.py).

The source file is a declarative data model (`Localization`,
`LocalizationTile`, `LocalizationProperty`, `LocalizationTag`) together
with derived computations (`is_3d`, `table_2d`, `table`, `flat_2d`,
`flat`, `center`).  The numeric kernels it delegates to
(`healpy.reorder`, `ligo.skymap.bayestar.rasterize`, the HEALPix UNIQ
tile-index scheme of `healpix_alchemy`, `ligo.skymap.postprocess.posterior_max`,
`dustmaps.sfd.SFDQuery`) are external collaborators; they are modelled
here from the specification of their interfaces, with exact rational
arithmetic standing in for IEEE floats.
-/

namespace Skyportal

/-! ## Spherical tile index (HEALPix UNIQ scheme)

Modelled from the spec: the tile identifier scheme of the external
HEALPix libraries (`healpix_alchemy`, `ligo.skymap`).  A tile at
resolution order `o` with pixel number `p` (valid when `p < 12 * 4^o`)
has the UNIQ identifier `4^(o+1) + p`. -/

/-- Number of pixels of the full sphere at resolution order `o`. -/
def npix (o : ℕ) : ℕ := 12 * 4 ^ o

/-- Modelled from the spec: `encode(order, pixelIndex) -> tileId`, the
HEALPix UNIQ encoding. -/
def encode (o p : ℕ) : ℕ := 4 ^ (o + 1) + p

/-- Modelled from the spec: `decode(tileId) -> (order, pixelIndex)`,
inverse of `encode` on valid identifiers. -/
def decode (u : ℕ) : ℕ × ℕ := (Nat.log 4 u - 1, u - 4 ^ Nat.log 4 u)

/-- Modelled from the spec: `solidAngle(tileId)`, the solid angle of a
tile, in units of the full sphere (multiply by `4 * π` steradians to get
the spec's unit; the claims compare sums built from this one function,
so the global scale factor is irrelevant). -/
def solidAngle (u : ℕ) : ℚ := 1 / (12 * 4 ^ (decode u).1)

/-- Solid angle of one fixed-resolution cell at order `T`, in units of
the full sphere. -/
def cellSolidAngle (T : ℕ) : ℚ := 1 / (12 * 4 ^ T)

/-! ## HEALPix RING/NESTED reindexing

Modelled from the spec: the fixed cell-ordering conventions of the
external HEALPix library (`healpy`).  `ring2nest nsd r` is the NESTED
index of the pixel whose RING (row-major-by-latitude) index is `r`, at
resolution `nside = nsd`; it is the index map used by
`healpy.reorder(m, 'NESTED', 'RING')`. -/

/-- Interleave the bits of `n` into the even bit positions
(`fuel`-bounded structural recursion; `fuel = n` always suffices). -/
def spreadBits (fuel n : ℕ) : ℕ :=
  match fuel with
  | 0 => 0
  | f + 1 => if n = 0 then 0 else n % 2 + 4 * spreadBits f (n / 2)

/-- Interleave the bits of `n` into the even bit positions. -/
def spread (n : ℕ) : ℕ := spreadBits n n

/-- Northmost ring crossed by each of the 12 HEALPix base faces
(the `jrll` table of the HEALPix reference implementation). -/
def jrll : List ℤ := [2, 2, 2, 2, 3, 3, 3, 3, 4, 4, 4, 4]

/-- Longitude offset of each of the 12 HEALPix base faces
(the `jpll` table of the HEALPix reference implementation). -/
def jpll : List ℤ := [1, 3, 5, 7, 0, 2, 4, 6, 1, 3, 5, 7]

/-- NESTED index of the RING-indexed pixel `p` at resolution `nsd`
(the standard HEALPix `ring2nest` conversion: recover the ring number,
in-ring position and base face of `p`, convert to in-face cartesian
coordinates, and interleave). -/
def ring2nest (nsd : ℕ) (p : ℕ) : ℕ :=
  let n : ℤ := (nsd : ℤ)
  let ncap : ℕ := 2 * nsd * (nsd - 1)
  let npx : ℕ := 12 * nsd ^ 2
  let info : ℤ × ℤ × ℤ × ℤ × ℕ :=
    if p < ncap then
      -- north polar cap
      let ir : ℕ := (1 + Nat.sqrt (1 + 2 * p)) / 2
      let iphn : ℕ := p + 1 - 2 * ir * (ir - 1)
      ((ir : ℤ), (iphn : ℤ), 0, (ir : ℤ), (iphn - 1) / ir)
    else if p < npx - ncap then
      -- equatorial belt
      let ip : ℕ := p - ncap
      let tmp : ℕ := ip / (4 * nsd)
      let ir : ℤ := (tmp : ℤ) + n
      let iph : ℤ := (ip : ℤ) - (tmp : ℤ) * (4 * n) + 1
      let ks : ℤ := (ir + n) % 2
      let ire : ℤ := ir - n + 1
      let irm : ℤ := 2 * n + 2 - ire
      let ifm : ℤ := (iph - ire / 2 + n - 1) / n
      let ifp : ℤ := (iph - irm / 2 + n - 1) / n
      let fc : ℕ :=
        if ifp = ifm then ifp.toNat ||| 4
        else if ifp < ifm then ifp.toNat
        else (ifm + 8).toNat
      (ir, iph, ks, n, fc)
    else
      -- south polar cap
      let ip : ℕ := npx - p
      let ir : ℕ := (1 + Nat.sqrt (2 * ip - 1)) / 2
      let iph : ℤ := 4 * (ir : ℤ) + 1 - ((ip : ℤ) - 2 * (ir : ℤ) * ((ir : ℤ) - 1))
      (4 * n - (ir : ℤ), iph, 0, (ir : ℤ), (8 + (iph - 1) / (ir : ℤ)).toNat)
  let (iring, iphi, kshift, nr, face) := info
  let irt : ℤ := iring - jrll.getD face 0 * n + 1
  let ipt0 : ℤ := 2 * iphi - jpll.getD face 0 * nr - kshift - 1
  let ipt : ℤ := if 2 * n ≤ ipt0 then ipt0 - 8 * n else ipt0
  let ix : ℤ := Int.fdiv (ipt - irt) 2
  let iy : ℤ := Int.fdiv (-(ipt + irt)) 2
  face * nsd ^ 2 + spread ix.toNat + 2 * spread iy.toNat

/-- Modelled from the spec: `healpy.reorder(xs, 'NESTED', 'RING')` on a
single map: the output's RING-indexed cell `r` holds the input's
NESTED-indexed cell `ring2nest r`. -/
def reorderN2R (nsd : ℕ) (xs : List ℚ) : List ℚ :=
  (List.range xs.length).map fun r => xs.getD (ring2nest nsd r) 0

/-- Modelled from the spec: `healpy.reorder` applied to a sequence of
maps (the 3D tuple path): each map of the sequence is reordered by the
same fixed NESTED-to-RING convention. -/
def reorderMulti (nsd : ℕ) (maps : List (List ℚ)) : List (List ℚ) :=
  maps.map (reorderN2R nsd)

/-! ## Rasterizer

Modelled from the spec: `ligo.skymap.bayestar.rasterize` on a
multiresolution column.  Working at a common deep order
`M = max targetOrder finestOrder`, a source tile `(o, p)` owns the
order-`M` pixels `[p * 4^(M-o), (p+1) * 4^(M-o))` and a target cell `c`
owns `[c * 4^(M-T), (c+1) * 4^(M-T))`; a cell's value is the
population-weighted combination of the densities of the tiles meeting
it (pure replication when every tile is at least as coarse as the
target).  The result is in NESTED order. -/

/-- Finest (largest) resolution order appearing among the tiles. -/
def finestOrder (tiles : List (ℕ × ℚ)) : ℕ :=
  (tiles.map fun x => (decode x.1).1).foldr max 0

/-- Number of order-`M` pixels shared by tile `u` and the order-`T`
cell `c`. -/
def overlapCount (u c T M : ℕ) : ℕ :=
  min (((decode u).2 + 1) * 4 ^ (M - (decode u).1)) ((c + 1) * 4 ^ (M - T))
    - max ((decode u).2 * 4 ^ (M - (decode u).1)) (c * 4 ^ (M - T))

/-- Value of the order-`T` cell `c`: population-weighted combination of
the densities of the tiles meeting it at the common order `M`. -/
def cellVal (tiles : List (ℕ × ℚ)) (T M c : ℕ) : ℚ :=
  (tiles.map fun x => x.2 * (overlapCount x.1 c T M : ℚ)).sum / 4 ^ (M - T)

/-- Modelled from the spec: `ligo.skymap.bayestar.rasterize` of one
multiresolution column to the fixed order `T`, in NESTED order. -/
def rasterizeNested (tiles : List (ℕ × ℚ)) (T : ℕ) : List ℚ :=
  (List.range (npix T)).map (cellVal tiles T (max T (finestOrder tiles)))

/-! ## The `Localization` data model (source: `class Localization(Base)`) -/

/-- The `Localization` row: the multiresolution HEALPix skymap columns.
`uniq` is the UNIQ pixel index array (`sa.ARRAY(sa.BigInteger)`,
non-null), `probdensity` the probability density array (non-null), and
the three distance arrays are nullable (`Option`).  Floats are modelled
by exact rationals. -/
structure Localization where
  uniq : List ℕ
  probdensity : List ℚ
  distmu : Option (List ℚ)
  distsigma : Option (List ℚ)
  distnorm : Option (List ℚ)

/-- Source: `nside = 512`, the HEALPix resolution used for flat
(non-multiresolution) operations. -/
def nside : ℕ := 512

/-- Source: `order = healpy.nside2order(Localization.nside)`; since
`512 = 2 ^ 9` the flat working order is `9`. -/
def flatOrder : ℕ := 9

/-- Source: `Localization.is_3d` — true iff the three distance arrays
are all present. -/
def is_3d (loc : Localization) : Bool :=
  loc.distmu.isSome && loc.distsigma.isSome && loc.distnorm.isSome

/-- The `(UNIQ, PROBDENSITY)` tile records of the map, in stored
(insertion) order. -/
def tiles2d (loc : Localization) : List (ℕ × ℚ) :=
  loc.uniq.zip loc.probdensity

/-- Modelled from the spec: `np.asarray(ids, dtype=np.int64)` — the
element-wise conversion of the UNIQ column to 64-bit integers, failing
(numpy `OverflowError`) on a value outside the `int64` range. -/
def asInt64 : List ℕ → Option (List ℤ)
  | [] => some []
  | u :: us => if u < 2 ^ 63 then (asInt64 us).map (fun t => (u : ℤ) :: t) else none

/-- Source: `Localization.table_2d` — the astropy
`Table([np.asarray(self.uniq, dtype=np.int64), self.probdensity])` with
columns `UNIQ`, `PROBDENSITY`; fails (`none`) if the int64 conversion
overflows or the column lengths differ (astropy rejects ragged
tables). -/
def table_2d (loc : Localization) : Option (List ℤ × List ℚ) :=
  match asInt64 loc.uniq with
  | none => none
  | some ids =>
      if loc.uniq.length = loc.probdensity.length then some (ids, loc.probdensity)
      else none

/-- The spec's `rasterizeFlat(map, targetOrder)`: rasterize the 2D
probability column to the fixed order `T` and reorder the result from
NESTED to RING indexing (source: `flat_2d`, with the target order made
a parameter). -/
def rasterizeFlat (loc : Localization) (T : ℕ) : List ℚ :=
  reorderN2R (2 ^ T) (rasterizeNested (tiles2d loc) T)

/-- Source: `Localization.flat_2d` — rasterize the probability-only
table at `order = healpy.nside2order(512) = 9` and reorder
`'NESTED' -> 'RING'`. -/
def flat_2d (loc : Localization) : List ℚ :=
  rasterizeFlat loc flatOrder

/-- The NESTED-order rasterized columns underlying `flat`: the four
columns `PROB`, `DISTMU`, `DISTSIGMA`, `DISTNORM` when the map is 3D,
else the single probability column. -/
def nestedColumns (loc : Localization) : List (List ℚ) :=
  match loc.distmu, loc.distsigma, loc.distnorm with
  | some mu, some sg, some nm =>
      [rasterizeNested (tiles2d loc) flatOrder,
       rasterizeNested (loc.uniq.zip mu) flatOrder,
       rasterizeNested (loc.uniq.zip sg) flatOrder,
       rasterizeNested (loc.uniq.zip nm) flatOrder]
  | _, _, _ => [rasterizeNested (tiles2d loc) flatOrder]

/-- Source: `Localization.flat` — when the map is 3D, rasterize the
five-column table and pass the 4-tuple
`(PROB, DISTMU, DISTSIGMA, DISTNORM)` through `healpy.reorder`
(which reorders each member of a sequence of maps); otherwise the
1-tuple `(self.flat_2d,)`. -/
def flat (loc : Localization) : List (List ℚ) :=
  match loc.distmu, loc.distsigma, loc.distnorm with
  | some mu, some sg, some nm =>
      reorderMulti (2 ^ flatOrder)
        [rasterizeNested (tiles2d loc) flatOrder,
         rasterizeNested (loc.uniq.zip mu) flatOrder,
         rasterizeNested (loc.uniq.zip sg) flatOrder,
         rasterizeNested (loc.uniq.zip nm) flatOrder]
  | _, _, _ => [flat_2d loc]

/-! ## Summary extractor (source: `Localization.center`) -/

/-- First index of the maximum of the list (the semantics of
`np.argmax`, which `ligo.skymap.postprocess.posterior_max` applies to
the flat probability map). -/
def argmaxAux : List ℚ → ℕ → ℕ → ℚ → ℕ
  | [], _, bi, _ => bi
  | x :: xs, i, bi, bv =>
      if bv < x then argmaxAux xs (i + 1) i x else argmaxAux xs (i + 1) bi bv

/-- Index of the posterior maximum of a flat probability map. -/
def argmaxIdx : List ℚ → ℕ
  | [] => 0
  | x :: xs => argmaxAux xs 1 0 x

/-- A sky coordinate as the summary consumes it: equatorial right
ascension and declination and galactic latitude and longitude, in
degrees (the astropy `SkyCoord` viewed at its interface). -/
structure Coord where
  raDeg : ℚ
  decDeg : ℚ
  galBDeg : ℚ
  galLDeg : ℚ

/-- The summary record built by `Localization.center`: `ebv = none`
models the absent extinction value. -/
structure CenterInfo where
  ra : ℚ
  dec : ℚ
  gal_lat : ℚ
  gal_lon : ℚ
  ebv : Option ℚ

/-- Source: `Localization.center`.  The external collaborators are
passed explicitly: `pix2coord` is the pixel-to-`SkyCoord` conversion
performed inside `ligo.skymap.postprocess.posterior_max`, and
`sfdQuery` the `dustmaps.sfd.SFDQuery` extinction lookup, whose raised
exception (`Except.error`) is caught (`try/except Exception`) and
downgraded to `ebv = None`.  The function is total: no failure of the
lookup escapes to the caller. -/
def center (loc : Localization) (pix2coord : ℕ → Coord)
    (sfdQuery : Coord → Except String ℚ) : CenterInfo :=
  let coord := pix2coord (argmaxIdx (flat_2d loc))
  { ra := coord.raDeg
    dec := coord.decDeg
    gal_lat := coord.galBDeg
    gal_lon := coord.galLDeg
    ebv := match sfdQuery coord with
           | Except.ok v => some v
           | Except.error _ => none }

/-! ## Construction (SQLAlchemy declarative constructor)

The source class has no `__init__` of its own and no validator: the
declarative `Base` constructor assigns the given column values
verbatim.  The `Option` result models the specification's claimed
possibility of failure (`none` would be the spec's `MalformedMap`);
the source has no failure path. -/

/-- Construct a `Localization` from the ingested arrays.  The source
performs no validation of lengths, signs or uniqueness. -/
def Localization.construct (uniq : List ℕ) (probdensity : List ℚ)
    (distmu distsigma distnorm : Option (List ℚ)) : Option Localization :=
  some ⟨uniq, probdensity, distmu, distsigma, distnorm⟩

/-! ## The `LocalizationTile` table (source: `class LocalizationTile(Base)`) -/

/-- One persisted tile row: `id` is the surrogate row id contributed by
the `baselayer` `Base` mixin, `localization_id` the foreign key to the
owning `Localization`, `healpix` the `healpix_alchemy.Tile` index. -/
structure LocalizationTile where
  id : ℕ
  localization_id : ℕ
  probdensity : ℚ
  healpix : ℕ

/-- Source: `LocalizationTile.__table_args__` — the unique index
`localizationtile_id_healpix_index` on the columns
`(LocalizationTile.id, LocalizationTile.healpix)`: a set of rows is
admissible iff no two rows agree on that column pair. -/
def uniqueIndexHolds (rows : List LocalizationTile) : Prop :=
  (rows.map fun r => (r.id, r.healpix)).Nodup

/-- The invariant claimed by the spec: no two rows agree on
`(localization_id, healpix)`. -/
def locTilePairsUnique (rows : List LocalizationTile) : Prop :=
  (rows.map fun r => (r.localization_id, r.healpix)).Nodup

/-! ## Concrete sample values used as witnesses -/

/-- A minimal 2D map: the single order-0 tile `UNIQ 4` (order 0,
pixel 0) with density 1. -/
def exLoc : Localization := ⟨[4], [1], none, none, none⟩

/-- A minimal 3D map: one tile with a full distance triple. -/
def exLoc3d : Localization := ⟨[4], [1], some [100], some [10], some [1]⟩

/-- A two-tile 2D map with distinct tile ids. -/
def exLocPair : Localization := ⟨[4, 5], [1, 2], none, none, none⟩

/-- A fixed sky coordinate. -/
def constCoord : Coord := ⟨0, 0, 0, 0⟩

/-- A constant pixel-to-coordinate conversion. -/
def p2cEx : ℕ → Coord := fun _ => constCoord

/-- An extinction lookup that always raises. -/
def sfdFail : Coord → Except String ℚ := fun _ => Except.error "lookup failed"

/-- Two tile rows with distinct surrogate ids but the same
`(localization_id, healpix)` pair. -/
def c8rows : List LocalizationTile := [⟨1, 1, 1, 7⟩, ⟨2, 1, 1, 7⟩]

/-! ## Helper lemmas -/

theorem decode_encode (o p : ℕ) (h : p < 12 * 4 ^ o) : decode (encode o p) = (o, p) := by
  have h1 : 4 ^ (o + 1) ≤ encode o p := Nat.le_add_right _ _
  have h2 : encode o p < 4 ^ (o + 1 + 1) := by
    have : 4 ^ (o + 1 + 1) = 4 ^ (o + 1) + 12 * 4 ^ o := by ring
    rw [this]
    exact Nat.add_lt_add_left h _
  have hlog : Nat.log 4 (encode o p) = o + 1 :=
    Nat.log_eq_of_pow_le_of_lt_pow h1 h2
  unfold decode encode
  rw [show Nat.log 4 (4 ^ (o + 1) + p) = o + 1 from hlog]
  simp

theorem sum_map_mul_const {α : Type} (l : List α) (f : α → ℚ) (k : ℚ) :
    (l.map fun x => f x * k).sum = (l.map f).sum * k := by
  induction l with
  | nil => simp
  | cons a t ih => simp [ih, add_mul]

theorem sum_map_add {α : Type} (L : List α) (g h : α → ℚ) :
    (L.map fun c => g c + h c).sum = (L.map g).sum + (L.map h).sum := by
  induction L with
  | nil => simp
  | cons a t ih => simp [ih]; ring

theorem sum_map_swap {α : Type} (l : List α) (n : ℕ) (f : α → ℕ → ℚ) :
    ((List.range n).map fun c => (l.map fun x => f x c).sum).sum
      = (l.map fun x => ((List.range n).map (f x)).sum).sum := by
  induction l with
  | nil => simp
  | cons a t ih =>
      simp only [List.map_cons, List.sum_cons]
      rw [← ih, ← sum_map_add]

theorem getD_range_self (l : List ℚ) :
    (List.range l.length).map (fun i => l.getD i 0) = l := by
  induction l with
  | nil => simp
  | cons a t ih =>
      have hcomp : ((fun i => (a :: t).getD i 0) ∘ Nat.succ) = fun i => t.getD i 0 := by
        funext i
        simp
      rw [List.length_cons, List.range_succ_eq_map, List.map_cons, List.map_map, hcomp, ih]
      simp

theorem reorder_sum (nsd : ℕ) (xs : List ℚ)
    (h : ((List.range xs.length).map (ring2nest nsd)).Perm (List.range xs.length)) :
    (reorderN2R nsd xs).sum = xs.sum := by
  unfold reorderN2R
  have h2 := (h.map fun i => xs.getD i 0).sum_eq
  rw [List.map_map] at h2
  rw [show ((fun i => xs.getD i 0) ∘ ring2nest nsd) = fun r => xs.getD (ring2nest nsd r) 0 from rfl] at h2
  rw [h2, getD_range_self]

theorem list_range_sum_eq (n : ℕ) (f : ℕ → ℚ) :
    ((List.range n).map f).sum = ∑ c ∈ Finset.range n, f c := by
  induction n with
  | zero => simp
  | succ m ih =>
      rw [List.range_succ, List.map_append, List.sum_append, ih, Finset.sum_range_succ]
      simp

theorem sum_ite_interval (n a K : ℕ) (h : a + K ≤ n) :
    ((List.range n).map fun c => if a ≤ c ∧ c < a + K then (1 : ℚ) else 0).sum = K := by
  rw [list_range_sum_eq, Finset.sum_boole]
  have hf : (Finset.range n).filter (fun c => a ≤ c ∧ c < a + K) = Finset.Ico a (a + K) := by
    ext c
    simp only [Finset.mem_filter, Finset.mem_range, Finset.mem_Ico]
    omega
  rw [hf, Nat.card_Ico]
  simp

theorem asInt64_eq (l : List ℕ) (h : ∀ u ∈ l, u < 2 ^ 63) :
    asInt64 l = some (l.map Int.ofNat) := by
  induction l with
  | nil => rfl
  | cons a t ih =>
      have ha : a < 2 ^ 63 := h a (List.mem_cons_self a t)
      have ht := ih fun u hu => h u (List.mem_cons_of_mem a hu)
      rw [show asInt64 (a :: t)
            = if a < 2 ^ 63 then (asInt64 t).map (fun r => (a : ℤ) :: r) else none from rfl,
        if_pos ha, ht, List.map_cons]
      rfl

theorem reorder_length (nsd : ℕ) (xs : List ℚ) :
    (reorderN2R nsd xs).length = xs.length := by
  simp [reorderN2R]

theorem rasterizeNested_length (tiles : List (ℕ × ℚ)) (T : ℕ) :
    (rasterizeNested tiles T).length = 12 * 4 ^ T := by
  simp [rasterizeNested, npix]

theorem flat_eq_reorder_cols (loc : Localization) :
    flat loc = (nestedColumns loc).map (reorderN2R (2 ^ flatOrder)) := by
  rcases loc with ⟨u, pd, dmu, dsg, dnm⟩
  rcases dmu with _ | mu <;> rcases dsg with _ | sg <;> rcases dnm with _ | nm <;> rfl

theorem nestedColumns_shape (loc : Localization) :
    ∀ c ∈ nestedColumns loc, ∃ ts, c = rasterizeNested ts flatOrder := by
  rcases loc with ⟨u, pd, dmu, dsg, dnm⟩
  rcases dmu with _ | mu
  · exact fun c hc => ⟨_, List.mem_singleton.mp hc⟩
  · rcases dsg with _ | sg
    · exact fun c hc => ⟨_, List.mem_singleton.mp hc⟩
    · rcases dnm with _ | nm
      · exact fun c hc => ⟨_, List.mem_singleton.mp hc⟩
      · intro c hc
        have hc4 : c ∈
            [rasterizeNested (tiles2d ⟨u, pd, some mu, some sg, some nm⟩) flatOrder,
             rasterizeNested (u.zip mu) flatOrder,
             rasterizeNested (u.zip sg) flatOrder,
             rasterizeNested (u.zip nm) flatOrder] := hc
        simp only [List.mem_cons, List.not_mem_nil, or_false] at hc4
        rcases hc4 with h | h | h | h
        · exact ⟨_, h⟩
        · exact ⟨_, h⟩
        · exact ⟨_, h⟩
        · exact ⟨_, h⟩

theorem sum_map_mul_const_id (l : List ℚ) (k : ℚ) :
    (l.map fun v => v * k).sum = l.sum * k := by
  induction l with
  | nil => simp
  | cons a t ih => simp [ih, add_mul]

theorem sum_map_const_mul {α : Type} (l : List α) (g : α → ℚ) (k : ℚ) :
    (l.map fun c => k * g c).sum = k * (l.map g).sum := by
  induction l with
  | nil => simp
  | cons a t ih => simp [ih, mul_add]

theorem sum_map_congr {α : Type} (l : List α) (F G : α → ℚ)
    (h : ∀ x ∈ l, F x = G x) : (l.map F).sum = (l.map G).sum := by
  induction l with
  | nil => rfl
  | cons a t ih =>
      simp only [List.map_cons, List.sum_cons]
      rw [h a (List.mem_cons_self a t), ih fun x hx => h x (List.mem_cons_of_mem a hx)]

theorem foldr_max_le (l : List ℕ) (T : ℕ) (h : ∀ a ∈ l, a ≤ T) :
    l.foldr max 0 ≤ T := by
  induction l with
  | nil => simp
  | cons a t ih =>
      simp only [List.foldr_cons]
      exact max_le (h a (List.mem_cons_self a t)) (ih fun x hx => h x (List.mem_cons_of_mem a hx))

theorem overlap_ite (o p T : ℕ) (hp : p < 12 * 4 ^ o) (c : ℕ) :
    (overlapCount (encode o p) c T T : ℚ)
      = if p * 4 ^ (T - o) ≤ c ∧ c < p * 4 ^ (T - o) + 4 ^ (T - o) then 1 else 0 := by
  have hdec : decode (encode o p) = (o, p) := decode_encode o p hp
  unfold overlapCount
  rw [hdec]
  dsimp only
  rw [Nat.sub_self, pow_zero, mul_one, mul_one, Nat.succ_mul]
  rw [show min (p * 4 ^ (T - o) + 4 ^ (T - o)) (c + 1) - max (p * 4 ^ (T - o)) c
        = if p * 4 ^ (T - o) ≤ c ∧ c < p * 4 ^ (T - o) + 4 ^ (T - o) then 1 else 0 from by
      simp only [Nat.min_def, Nat.max_def]
      split_ifs <;> omega]
  split_ifs <;> simp

theorem tile_mass (T o p : ℕ) (d : ℚ) (hp : p < 12 * 4 ^ o) (hoT : o ≤ T) :
    (((List.range (12 * 4 ^ T)).map fun c =>
        d * (overlapCount (encode o p) c T T : ℚ)).sum) * cellSolidAngle T
      = d * solidAngle (encode o p) := by
  have hdec : decode (encode o p) = (o, p) := decode_encode o p hp
  have hbound : p * 4 ^ (T - o) + 4 ^ (T - o) ≤ 12 * 4 ^ T := by
    have h1 : (p + 1) * 4 ^ (T - o) ≤ (12 * 4 ^ o) * 4 ^ (T - o) :=
      Nat.mul_le_mul_right _ (Nat.succ_le_of_lt hp)
    have h2 : (12 * 4 ^ o) * 4 ^ (T - o) = 12 * 4 ^ T := by
      rw [mul_assoc, ← pow_add, Nat.add_sub_cancel' hoT]
    rw [Nat.succ_mul] at h1
    rw [← h2]
    exact h1
  rw [sum_map_congr _ _
      (fun c => d * if p * 4 ^ (T - o) ≤ c ∧ c < p * 4 ^ (T - o) + 4 ^ (T - o) then 1 else 0)
      (fun c _ => by rw [overlap_ite o p T hp c])]
  rw [sum_map_const_mul, sum_ite_interval _ _ _ hbound]
  rw [solidAngle, hdec]
  dsimp only
  rw [cellSolidAngle]
  have hcast : ((4 ^ (T - o) : ℕ) : ℚ) = (4 : ℚ) ^ (T - o) := by push_cast; ring
  rw [hcast]
  have h4 : (4 : ℚ) ^ (T - o) * 4 ^ o = 4 ^ T := by
    rw [← pow_add]
    congr 1
    omega
  have hne1 : (12 : ℚ) * 4 ^ T ≠ 0 := by positivity
  have hne2 : (12 : ℚ) * 4 ^ o ≠ 0 := by positivity
  field_simp
  rw [← h4]
  ring

/-! ## Claims -/

/-- C1 (counterexample): the flat rasterized output does not have
length `4 ^ targetOrder`: for the one-tile map `exLoc` rasterized at
target order 0 the output has the HEALPix pixel count 12, while
`4 ^ 0 = 1`. -/
theorem c1_counterexample :
    (rasterizeFlat exLoc 0).length = 12 ∧ (12 : ℕ) ≠ 4 ^ 0 := by
  constructor
  · rw [rasterizeFlat, reorder_length, rasterizeNested_length]
    decide
  · decide

/-- C1 (amended): for every map and every target order, the flat
rasterized 2D output has length exactly `12 * 4 ^ targetOrder` (the
HEALPix pixel count `12 * nside ^ 2` with `nside = 2 ^ targetOrder`),
and so does each array of the tuple returned by `flat` at the working
order. -/
theorem c1_rasterize_length (loc : Localization) (T : ℕ) :
    (rasterizeFlat loc T).length = 12 * 4 ^ T ∧
    ∀ a ∈ flat loc, a.length = 12 * 4 ^ flatOrder := by
  constructor
  · rw [rasterizeFlat, reorder_length, rasterizeNested_length]
  · intro a ha
    rw [flat_eq_reorder_cols] at ha
    obtain ⟨c, hc, hac⟩ := List.mem_map.mp ha
    obtain ⟨ts, hts⟩ := nestedColumns_shape loc c hc
    rw [← hac, hts, reorder_length, rasterizeNested_length]

/-- C1 (witness for the amended claim): evaluating the amended claim at
`exLoc` with target order 2 and at the member `flat_2d exLoc` of
`flat exLoc`. -/
theorem c1_witness :
    (rasterizeFlat exLoc 2).length = 12 * 4 ^ 2 ∧
    flat_2d exLoc ∈ flat exLoc ∧ (flat_2d exLoc).length = 12 * 4 ^ flatOrder :=
  ⟨(c1_rasterize_length exLoc 2).1, List.mem_singleton.mpr rfl,
    (c1_rasterize_length exLoc flatOrder).2 (flat_2d exLoc) (List.mem_singleton.mpr rfl)⟩

/-- C2: if the extinction lookup raises at the posterior-maximum
coordinate, `center` still returns, with ra, dec, galactic latitude and
galactic longitude populated from the posterior maximum and the
extinction field absent; the failure never reaches the caller (the
function is total). -/
theorem c2_center_resilient (loc : Localization) (p2c : ℕ → Coord)
    (sfd : Coord → Except String ℚ)
    (h : ∃ e, sfd (p2c (argmaxIdx (flat_2d loc))) = Except.error e) :
    (center loc p2c sfd).ra = (p2c (argmaxIdx (flat_2d loc))).raDeg ∧
    (center loc p2c sfd).dec = (p2c (argmaxIdx (flat_2d loc))).decDeg ∧
    (center loc p2c sfd).gal_lat = (p2c (argmaxIdx (flat_2d loc))).galBDeg ∧
    (center loc p2c sfd).gal_lon = (p2c (argmaxIdx (flat_2d loc))).galLDeg ∧
    (center loc p2c sfd).ebv = none := by
  obtain ⟨e, he⟩ := h
  refine ⟨rfl, rfl, rfl, rfl, ?_⟩
  simp only [center, he]

/-- C2 (witness): a lookup that always raises, at the map `exLoc`. -/
theorem c2_witness :
    (center exLoc p2cEx sfdFail).ra = (p2cEx (argmaxIdx (flat_2d exLoc))).raDeg ∧
    (center exLoc p2cEx sfdFail).dec = (p2cEx (argmaxIdx (flat_2d exLoc))).decDeg ∧
    (center exLoc p2cEx sfdFail).gal_lat = (p2cEx (argmaxIdx (flat_2d exLoc))).galBDeg ∧
    (center exLoc p2cEx sfdFail).gal_lon = (p2cEx (argmaxIdx (flat_2d exLoc))).galLDeg ∧
    (center exLoc p2cEx sfdFail).ebv = none :=
  c2_center_resilient exLoc p2cEx sfdFail ⟨"lookup failed", rfl⟩

/-- C3: for a valid map (equal-length arrays, unique tile ids that fit
in `int64`, non-negative densities), the table view returns exactly the
stored tile identifiers and probability densities, in insertion
order. -/
theorem c3_table2d_roundtrip (loc : Localization)
    (hlen : loc.uniq.length = loc.probdensity.length)
    (_hnodup : loc.uniq.Nodup)
    (_hpos : ∀ d ∈ loc.probdensity, 0 ≤ d)
    (hrange : ∀ u ∈ loc.uniq, u < 2 ^ 63) :
    table_2d loc = some (loc.uniq.map Int.ofNat, loc.probdensity) := by
  unfold table_2d
  rw [asInt64_eq loc.uniq hrange]
  simp [hlen]

/-- C3 (witness): the two-tile map `exLocPair`. -/
theorem c3_witness :
    table_2d exLocPair = some (exLocPair.uniq.map Int.ofNat, exLocPair.probdensity) :=
  c3_table2d_roundtrip exLocPair rfl (by decide) (by decide) (by decide)

/-- C4: the derived flag `is_3d` is true iff the `distmu`, `distsigma`
and `distnorm` arrays are all present for the map (any absent distance
array makes the map 2D-only). -/
theorem c4_is3d_iff (loc : Localization) :
    is_3d loc = true ↔
      (loc.distmu ≠ none ∧ loc.distsigma ≠ none ∧ loc.distnorm ≠ none) := by
  simp [is_3d, Option.isSome_iff_ne_none, and_assoc]

/-- C4 (witness): the iff evaluated at the 3D map `exLoc3d`. -/
theorem c4_witness :
    is_3d exLoc3d = true ↔
      (exLoc3d.distmu ≠ none ∧ exLoc3d.distsigma ≠ none ∧ exLoc3d.distnorm ≠ none) :=
  c4_is3d_iff exLoc3d

/-- C5: both the 2D and the 3D flat outputs are produced by applying
the same fixed NESTED-to-RING reindexing `reorderN2R` to the
NESTED-order rasterized columns: `flat` is `reorderN2R` mapped over
`nestedColumns`, and `flat_2d` is `reorderN2R` of the NESTED 2D
rasterization, so both paths honor the one cell-ordering
convention. -/
theorem c5_single_ordering_convention (loc : Localization) :
    flat loc = (nestedColumns loc).map (reorderN2R (2 ^ flatOrder)) ∧
    flat_2d loc = reorderN2R (2 ^ flatOrder) (rasterizeNested (tiles2d loc) flatOrder) := by
  constructor
  · rcases loc with ⟨u, pd, dmu, dsg, dnm⟩
    cases dmu <;> cases dsg <;> cases dnm <;> rfl
  · rfl

/-- C7 (counterexample): construction with a tile-id array of length 5
and a density array of length 4 does not fail: the object is created
and retained with the mismatched arrays stored verbatim. -/
theorem c7_counterexample :
    Localization.construct [4, 5, 6, 7, 8] [1, 1, 1, 1] none none none
      = some ⟨[4, 5, 6, 7, 8], [1, 1, 1, 1], none, none, none⟩ := rfl

/-- C7 (amended): map construction performs no validation at all — no
length check, no non-negativity check, no uniqueness check, and no
`MalformedMap` error exists; the declarative constructor stores the
given arrays verbatim and always succeeds. -/
theorem c7_no_validation (uniq : List ℕ) (pd : List ℚ)
    (dmu dsg dnm : Option (List ℚ)) :
    Localization.construct uniq pd dmu dsg dnm = some ⟨uniq, pd, dmu, dsg, dnm⟩ := rfl

/-- C8 (counterexample): two rows with the same
`(localization_id, healpix)` pair but distinct surrogate row ids
satisfy the unique index of the source (which is on
`(LocalizationTile.id, LocalizationTile.healpix)`), so the schema does
not make `(localization, tileId)` unique. -/
theorem c8_counterexample :
    uniqueIndexHolds c8rows ∧ ¬ locTilePairsUnique c8rows := by
  constructor
  · unfold uniqueIndexHolds
    decide
  · unfold locTilePairsUnique
    decide

/-- C8 (amended): the composite unique index of the source is on the
tile row's own `id` and `healpix`; any row set with pairwise-distinct
row ids satisfies it regardless of `(localization_id, healpix)`
duplicates, so it does not enforce the claimed invariant. -/
theorem c8_index_on_row_id (rows : List LocalizationTile)
    (h : (rows.map LocalizationTile.id).Nodup) : uniqueIndexHolds rows := by
  unfold uniqueIndexHolds
  refine List.Nodup.of_map Prod.fst ?_
  rw [List.map_map]
  exact h

/-- C8 (witness for the amended claim): the duplicate-pair rows
`c8rows` have distinct row ids and satisfy the index. -/
theorem c8_witness : (c8rows.map LocalizationTile.id).Nodup ∧ uniqueIndexHolds c8rows :=
  ⟨by decide, c8_index_on_row_id c8rows (by decide)⟩

/-- C9: decoding the tile identifier produced by `encode` returns the
same (order, pixel) pair, and `encode` is injective across all valid
inputs. -/
theorem c9_encode_decode (o p : ℕ) (h : p < 12 * 4 ^ o) :
    decode (encode o p) = (o, p) ∧
    ∀ o2 p2, p2 < 12 * 4 ^ o2 → encode o p = encode o2 p2 → o = o2 ∧ p = p2 := by
  refine ⟨decode_encode o p h, ?_⟩
  intro o2 p2 h2 heq
  have e1 := decode_encode o p h
  have e2 := decode_encode o2 p2 h2
  rw [heq, e2] at e1
  simp only [Prod.mk.injEq] at e1
  exact ⟨e1.1.symm, e1.2.symm⟩

/-- C9 (witness): order 0, pixel 5. -/
theorem c9_witness : decode (encode 0 5) = (0, 5) :=
  (c9_encode_decode 0 5 (by decide)).1

/-- C10: for a map that is not 3D, `flat` returns a 1-tuple whose sole
element is the 2D flat probability array. -/
theorem c10_flat_wraps_2d (loc : Localization) (h : is_3d loc = false) :
    flat loc = [flat_2d loc] := by
  rcases loc with ⟨u, pd, dmu, dsg, dnm⟩
  cases dmu <;> cases dsg <;> cases dnm <;> first
    | rfl
    | simp [is_3d] at h

/-- C10 (witness): the 2D map `exLoc`. -/
theorem c10_witness : is_3d exLoc = false ∧ flat exLoc = [flat_2d exLoc] :=
  ⟨rfl, c10_flat_wraps_2d exLoc rfl⟩

/-- C6: rasterization conserves probability mass.  For every map whose
tiles carry valid identifiers of order at most the target order, and a
target order whose NESTED-to-RING reindexing is the HEALPix
permutation, the sum of density times cell solid angle over the
rasterized output equals the sum of density times tile solid angle over
the source tiles — exactly, in the exact-arithmetic model, hence a
fortiori within the claimed floating-point tolerance. -/
theorem c6_mass_conservation (loc : Localization) (T : ℕ)
    (hvalid : ∀ x ∈ tiles2d loc, ∃ o p, x.1 = encode o p ∧ p < 12 * 4 ^ o ∧ o ≤ T)
    (hperm : ((List.range (12 * 4 ^ T)).map (ring2nest (2 ^ T))).Perm
      (List.range (12 * 4 ^ T))) :
    ((rasterizeFlat loc T).map fun v => v * cellSolidAngle T).sum
      = ((tiles2d loc).map fun x => x.2 * solidAngle x.1).sum := by
  have hfin : finestOrder (tiles2d loc) ≤ T := by
    apply foldr_max_le
    intro a ha
    obtain ⟨x, hx, hax⟩ := List.mem_map.mp ha
    obtain ⟨o, p, hxe, hp, hoT⟩ := hvalid x hx
    rw [← hax, hxe, decode_encode o p hp]
    exact hoT
  have hM : max T (finestOrder (tiles2d loc)) = T := max_eq_left hfin
  have hR : rasterizeNested (tiles2d loc) T
      = (List.range (12 * 4 ^ T)).map fun c =>
          ((tiles2d loc).map fun x => x.2 * (overlapCount x.1 c T T : ℚ)).sum := by
    unfold rasterizeNested cellVal npix
    rw [hM]
    have hfun : (fun c => ((tiles2d loc).map fun x =>
          x.2 * (overlapCount x.1 c T T : ℚ)).sum / 4 ^ (T - T))
        = fun c => ((tiles2d loc).map fun x => x.2 * (overlapCount x.1 c T T : ℚ)).sum := by
      funext c
      rw [Nat.sub_self, pow_zero, div_one]
    rw [hfun]
  have hlen : (rasterizeNested (tiles2d loc) T).length = 12 * 4 ^ T :=
    rasterizeNested_length _ _
  have hperm2 : ((List.range (rasterizeNested (tiles2d loc) T).length).map
        (ring2nest (2 ^ T))).Perm
      (List.range (rasterizeNested (tiles2d loc) T).length) := by
    rw [hlen]
    exact hperm
  calc ((rasterizeFlat loc T).map fun v => v * cellSolidAngle T).sum
      = (reorderN2R (2 ^ T) (rasterizeNested (tiles2d loc) T)).sum * cellSolidAngle T :=
        sum_map_mul_const_id _ _
    _ = (rasterizeNested (tiles2d loc) T).sum * cellSolidAngle T := by
        rw [reorder_sum _ _ hperm2]
    _ = ((List.range (12 * 4 ^ T)).map fun c =>
          ((tiles2d loc).map fun x => x.2 * (overlapCount x.1 c T T : ℚ)).sum).sum
            * cellSolidAngle T := by
        rw [hR]
    _ = ((tiles2d loc).map fun x => ((List.range (12 * 4 ^ T)).map fun c =>
          x.2 * (overlapCount x.1 c T T : ℚ)).sum).sum * cellSolidAngle T := by
        rw [sum_map_swap (tiles2d loc) (12 * 4 ^ T)
          fun x c => x.2 * (overlapCount x.1 c T T : ℚ)]
    _ = ((tiles2d loc).map fun x => (((List.range (12 * 4 ^ T)).map fun c =>
          x.2 * (overlapCount x.1 c T T : ℚ)).sum) * cellSolidAngle T).sum :=
        (sum_map_mul_const (tiles2d loc)
          (fun x => ((List.range (12 * 4 ^ T)).map fun c =>
            x.2 * (overlapCount x.1 c T T : ℚ)).sum) (cellSolidAngle T)).symm
    _ = ((tiles2d loc).map fun x => x.2 * solidAngle x.1).sum := by
        apply sum_map_congr
        intro x hx
        obtain ⟨o, p, hxe, hp, hoT⟩ := hvalid x hx
        rw [hxe]
        exact tile_mass T o p x.2 hp hoT

/-- C6 (witness): the one-tile full-sky map `exLoc` at target order 0,
where the hypotheses are checked by computation. -/
theorem c6_witness :
    ((rasterizeFlat exLoc 0).map fun v => v * cellSolidAngle 0).sum
      = ((tiles2d exLoc).map fun x => x.2 * solidAngle x.1).sum :=
  c6_mass_conservation exLoc 0
    (by
      intro x hx
      have hx2 : x ∈ [((4 : ℕ), (1 : ℚ))] := hx
      rw [List.mem_singleton] at hx2
      subst hx2
      exact ⟨0, 0, rfl, by decide, Nat.le_refl 0⟩)
    (by decide)

end Skyportal

